import Mathlib

/-!
Shallow embedding of the Idea Selection and Deduplication Engine of the
tech-blog-pipeline repository.

Sources embedded here:
- `src/lib/embeddings.ts`: `cosineSimilarity`, `isIdeaUnique`.
- `src/lib/vector-db.ts`: `ideaToMetadata`, `metadataToIdea`, `markIdeaAsUsed`
  (over an association-list model of the Pinecone index).
- `src/pages/api/ideas.ts`: the POST branch of the `ideas` handler
  (the Uniqueness Gate).
- the cron-publish handler (`selectUniqueIdea`, in `src/unnamed/part_000`).

Modelling conventions:
- JS numbers are modelled as exact rationals `ℚ`; the algorithms only
  compare, add, multiply and divide, which ℚ supports exactly.
- External collaborators (the embedding model, `Math.sqrt`, `Date` parsing,
  `Math.random`) are passed as explicit parameters; the properties the code
  relies on are stated as hypotheses of the theorems.
- `JSON.stringify` / `JSON.parse` on arrays of strings (the runtime builtins
  used for the `tags` metadata field) are implemented here character by
  character, following the JSON grammar fragment JSON.stringify emits.
-/

/-- The `BlogIdea` entity of `src/lib/schemas.ts`: all fields are strings
except `tags` (array of strings), `used` (boolean) and `usedAt`
(optional string). -/
structure BlogIdea where
  id : String
  title : String
  description : String
  tags : List String
  createdAt : String
  used : Bool
  usedAt : Option String
deriving Repr, DecidableEq

/-- The flat string metadata record stored in Pinecone
(`IdeaMetadata` in `src/lib/schemas.ts`): every field is a string. -/
structure IdeaMetadata where
  title : String
  description : String
  tags : String
  createdAt : String
  used : String
  usedAt : String
deriving Repr, DecidableEq

/-! ## JSON codec for arrays of strings

`ideaToMetadata` serializes `tags` with `JSON.stringify` and
`metadataToIdea` parses it back with `JSON.parse`.  These are runtime
builtins, embedded here for the string-array fragment of JSON.
`JSON.stringify` of an array of strings emits `["…","…"]` with no
whitespace, escaping `"`, `\`, and the control characters U+0000–U+001F
(using `\b`, `\t`, `\n`, `\f`, `\r` and `\u00XX` forms).  The parser
below accepts exactly the whitespace-free string-array grammar, which
includes everything the encoder emits. -/

/-- Lower-case hexadecimal digit for `n < 16`, as emitted by
`JSON.stringify` in `\u00XX` escapes. -/
def hexDigitChar (n : ℕ) : Char :=
  if n < 10 then Char.ofNat (48 + n) else Char.ofNat (87 + n)

/-- JSON escaping of one character, following `JSON.stringify`. -/
def escapeChar (c : Char) : List Char :=
  if c = '"' then ['\\', '"']
  else if c = '\\' then ['\\', '\\']
  else if c = '\x08' then ['\\', 'b']
  else if c = '\t' then ['\\', 't']
  else if c = '\n' then ['\\', 'n']
  else if c = '\x0c' then ['\\', 'f']
  else if c = '\x0d' then ['\\', 'r']
  else if c.toNat < 32 then
    ['\\', 'u', '0', '0', hexDigitChar (c.toNat / 16), hexDigitChar (c.toNat % 16)]
  else [c]

/-- JSON escaping of a character sequence. -/
def escapeList (l : List Char) : List Char := (l.map escapeChar).flatten

/-- Characters of the JSON encoding of one string, quotes included. -/
def encodeJsonStringChars (l : List Char) : List Char :=
  '"' :: escapeList l ++ ['"']

/-- Characters of the items after the first in a JSON string array:
one `,"…"` group per item. -/
def encTail (ls : List (List Char)) : List Char :=
  (ls.map fun cs => ',' :: encodeJsonStringChars cs).flatten

/-- Characters of `JSON.stringify` applied to an array of strings:
`[` , the comma-separated encoded strings, `]`. -/
def encodeArrayChars (ls : List (List Char)) : List Char :=
  match ls with
  | [] => ['[', ']']
  | x :: xs => '[' :: encodeJsonStringChars x ++ (encTail xs ++ [']'])

/-- `JSON.stringify` for a list of strings, as used on the `tags` field. -/
def encodeStringArray (l : List String) : String :=
  String.mk (encodeArrayChars (l.map String.data))

/-- Value of one hexadecimal digit, as accepted by `JSON.parse`
in `\uXXXX` escapes. -/
def hexVal (c : Char) : Option ℕ :=
  if '0' ≤ c ∧ c ≤ '9' then some (c.toNat - 48)
  else if 'a' ≤ c ∧ c ≤ 'f' then some (c.toNat - 87)
  else if 'A' ≤ c ∧ c ≤ 'F' then some (c.toNat - 55)
  else none

/-- Prepend a character to the first component of a parser result. -/
def consFst (c : Char) (p : List Char × List Char) : List Char × List Char :=
  (c :: p.1, p.2)

/-- Parse the body of a JSON string (the opening quote already consumed),
returning the decoded characters and the input remaining after the closing
quote.  Raw control characters are rejected, escape sequences are the JSON
ones; `\uXXXX` values in the surrogate range are rejected (Lean `Char` is a
unicode scalar value). -/
def parseJsonStringBody : List Char → Option (List Char × List Char)
  | [] => none
  | c :: rest =>
    if c = '"' then some ([], rest)
    else if c = '\\' then
      match rest with
      | [] => none
      | e :: rest2 =>
        if e = '"' then Option.map (consFst '"') (parseJsonStringBody rest2)
        else if e = '\\' then Option.map (consFst '\\') (parseJsonStringBody rest2)
        else if e = '/' then Option.map (consFst '/') (parseJsonStringBody rest2)
        else if e = 'b' then Option.map (consFst '\x08') (parseJsonStringBody rest2)
        else if e = 'f' then Option.map (consFst '\x0c') (parseJsonStringBody rest2)
        else if e = 'n' then Option.map (consFst '\n') (parseJsonStringBody rest2)
        else if e = 'r' then Option.map (consFst '\x0d') (parseJsonStringBody rest2)
        else if e = 't' then Option.map (consFst '\t') (parseJsonStringBody rest2)
        else if e = 'u' then
          match rest2 with
          | h1 :: h2 :: h3 :: h4 :: rest3 =>
            match hexVal h1, hexVal h2, hexVal h3, hexVal h4 with
            | some a, some b, some c2, some d =>
              let n := ((a * 16 + b) * 16 + c2) * 16 + d
              if n < 55296 ∨ 57344 ≤ n then
                Option.map (consFst (Char.ofNat n)) (parseJsonStringBody rest3)
              else none
            | _, _, _, _ => none
          | _ => none
        else none
    else if c.toNat < 32 then none
    else Option.map (consFst c) (parseJsonStringBody rest)

/-- Parse the items of a JSON string array after the first item:
a sequence of `,"…"` groups closed by `]`.  The fuel argument bounds the
number of items and makes the recursion structural; callers pass the length
of the remaining input, which always suffices. -/
def parseJsonArrayItems : ℕ → List Char → Option (List (List Char) × List Char)
  | _, ']' :: rest => some ([], rest)
  | fuel + 1, ',' :: '"' :: body =>
    match parseJsonStringBody body with
    | some (item, rest2) =>
      match parseJsonArrayItems fuel rest2 with
      | some (items, rest3) => some (item :: items, rest3)
      | none => none
    | none => none
  | _, _ => none

/-- `JSON.parse` for an array of strings, as applied to the `tags`
metadata field by `metadataToIdea`.  Returns `none` where `JSON.parse`
would throw, or where the parsed value is not an array of strings. -/
def decodeStringArray (s : String) : Option (List String) :=
  match s.data with
  | '[' :: ']' :: rest => if rest.isEmpty then some [] else none
  | '[' :: '"' :: body =>
    match parseJsonStringBody body with
    | some (item, rest2) =>
      match parseJsonArrayItems rest2.length rest2 with
      | some (items, rest3) =>
        if rest3.isEmpty then some ((item :: items).map String.mk) else none
      | none => none
    | none => none
  | _ => none

/-! ## Repository translation layer (`src/lib/vector-db.ts`) -/

/-- `ideaToMetadata` of `src/lib/vector-db.ts`: `tags` as a JSON-encoded
string, `used` as `"true"`/`"false"`, `usedAt` as the empty string when
absent (`idea.usedAt || ""`). -/
def ideaToMetadata (idea : BlogIdea) : IdeaMetadata :=
  { title := idea.title
    description := idea.description
    tags := encodeStringArray idea.tags
    createdAt := idea.createdAt
    used := if idea.used then "true" else "false"
    usedAt := idea.usedAt.getD "" }

/-- `metadataToIdea` of `src/lib/vector-db.ts`: parses the JSON `tags`
string back to a list, `used` by comparison with `"true"`, and an empty
`usedAt` as absent (`metadata.usedAt || undefined`).  Returns `none`
where `JSON.parse` on `tags` would throw. -/
def metadataToIdea (id : String) (m : IdeaMetadata) : Option BlogIdea :=
  (decodeStringArray m.tags).map fun tags =>
    { id := id
      title := m.title
      description := m.description
      tags := tags
      createdAt := m.createdAt
      used := m.used == "true"
      usedAt := if m.usedAt = "" then none else some m.usedAt }

/-- A record of the vector store: the stored embedding vector and the flat
metadata, as Pinecone keeps them. -/
structure StoredRecord where
  values : List ℚ
  metadata : IdeaMetadata
deriving Repr, DecidableEq

/-- The vector store, modelled as an association list from id to record. -/
abbrev VectorStore := List (String × StoredRecord)

/-- `index.fetch([id])` followed by the `records[id]` lookup. -/
def fetchRecord (store : VectorStore) (id : String) : Option StoredRecord :=
  (List.find? (fun p => p.1 == id) store).map (·.2)

/-- `index.upsert` for a single id: replaces the record when the id is
present, appends it otherwise. -/
def upsertRecord (store : VectorStore) (id : String) (rec : StoredRecord) :
    VectorStore :=
  if List.any store (fun p => p.1 == id) then
    List.map (fun p => if p.1 == id then (id, rec) else p) store
  else store ++ [(id, rec)]

/-- `markIdeaAsUsed` of `src/lib/vector-db.ts`: fetch the existing record,
fail with "Idea not found" when absent, decode the metadata, rewrite it with
`used := true` and `usedAt := now` (`now` stands for
`new Date().toISOString()`), and re-upsert with the same stored vector.
The middle error branch models `JSON.parse` throwing on malformed `tags`
metadata inside `metadataToIdea`. -/
def markIdeaAsUsed (store : VectorStore) (id : String) (now : String) :
    Except String VectorStore :=
  match fetchRecord store id with
  | none => .error "Idea not found"
  | some existingRecord =>
    match metadataToIdea id existingRecord.metadata with
    | none => .error "Invalid metadata"
    | some existingIdea =>
      let updatedIdea : BlogIdea :=
        { existingIdea with used := true, usedAt := some now }
      .ok (upsertRecord store id
        ⟨existingRecord.values, ideaToMetadata updatedIdea⟩)

/-! ## Similarity function (`src/lib/embeddings.ts`) -/

/-- Dot product accumulated over the common prefix, as the index loop of
`cosineSimilarity` computes it (the loop runs over equal lengths; the
function is only reached with equal lengths). -/
def dotProd : List ℚ → List ℚ → ℚ
  | a :: as', b :: bs => a * b + dotProd as' bs
  | _, _ => 0

/-- Sum of squares of a vector, the `magnitudeA`/`magnitudeB` accumulators
of `cosineSimilarity` before the square root is taken. -/
def sumSq : List ℚ → ℚ
  | [] => 0
  | a :: as' => a * a + sumSq as'

/-- `cosineSimilarity` of `src/lib/embeddings.ts`.  The external
`Math.sqrt` is passed as the parameter `sqrt`; theorems assume of it only
what the code relies on (`Math.sqrt x = 0` exactly at `x = 0` for
nonnegative `x`).  Throws on unequal lengths; returns 0 when either
computed magnitude is 0, the quotient otherwise. -/
def cosineSimilarity (sqrt : ℚ → ℚ) (vecA vecB : List ℚ) : Except String ℚ :=
  if vecA.length ≠ vecB.length then .error "Vectors must have the same length"
  else
    let dotProduct := dotProd vecA vecB
    let magnitudeA := sqrt (sumSq vecA)
    let magnitudeB := sqrt (sumSq vecB)
    if magnitudeA = 0 ∨ magnitudeB = 0 then .ok 0
    else .ok (dotProduct / (magnitudeA * magnitudeB))

/-- `isIdeaUnique` of `src/lib/embeddings.ts` (default threshold 0.85):
unique when the maximum similarity is strictly below the threshold. -/
def isIdeaUnique (maxSimilarity : ℚ) (threshold : ℚ) : Bool :=
  maxSimilarity < threshold

/-! ## Uniqueness Gate (`src/pages/api/ideas.ts`, POST branch) -/

/-- The similarity threshold literal `0.85` of the ideas route, written as
`mkRat 85 100` (the same rational) to keep the constant kernel-reducible. -/
def ideaThreshold : ℚ := mkRat 85 100

/-- One match of `querySimilarIdeas`: id, similarity score, and the decoded
idea metadata. -/
structure QueryMatch where
  id : String
  score : ℚ
  metadata : BlogIdea
deriving Repr, DecidableEq

/-- Outcome of the POST branch of the ideas route: HTTP status, the stored
idea (on 201), and the diagnostic `similarIdeas` list of the 400 response
(title and similarity of each entry). -/
structure CreateResponse where
  status : ℕ
  stored : Option BlogIdea
  similarIdeas : List (String × ℚ)
deriving Repr, DecidableEq

/-- POST branch of the `ideas` handler (`src/pages/api/ideas.ts` lines
49–78), given the `topK = 5` results of `querySimilarIdeas` for the
candidate's embedding and the freshly built idea.  Rejects with 400 when
`similarIdeas.some((idea) => idea.score > 0.85)`, answering with the first
three matches; otherwise upserts the idea and answers 201. -/
def createIdeaHandler (similarIdeas : List QueryMatch) (idea : BlogIdea) :
    CreateResponse :=
  let tooSimilar := similarIdeas.any fun m => ideaThreshold < m.score
  if tooSimilar then
    { status := 400
      stored := none
      similarIdeas := (similarIdeas.take 3).map fun m => (m.metadata.title, m.score) }
  else
    { status := 201, stored := some idea, similarIdeas := [] }

/-! ## Selection Algorithm (`selectUniqueIdea` of the cron-publish handler) -/

/-- The unused partition: `allIdeas.filter((idea) => !idea.used)`. -/
def unusedOf (allIdeas : List BlogIdea) : List BlogIdea :=
  allIdeas.filter fun idea => !idea.used

/-- The used-history filter of `selectUniqueIdea`:
`idea.used && idea.usedAt !== undefined`. -/
def usedWithTimeOf (allIdeas : List BlogIdea) : List BlogIdea :=
  allIdeas.filter fun idea => idea.used && idea.usedAt.isSome

/-- The recent-history set: the used-history, sorted by
`new Date(usedAt).getTime()` descending and cut to the five most recent.
`dateTime` stands for the external `Date` parser.  JavaScript `Array#sort`
is stable; a stable sort by the comparator
`(a, b) => time(b) - time(a)` places `a` before `b` exactly when
`time b ≤ time a`, keeping input order on ties, which is
`List.insertionSort` with that relation. -/
def recentOf (dateTime : String → ℤ) (allIdeas : List BlogIdea) :
    List BlogIdea :=
  (List.insertionSort
    (fun a b => dateTime (b.usedAt.getD "") ≤ dateTime (a.usedAt.getD ""))
    (usedWithTimeOf allIdeas)).take 5

/-- `maxSimilarity` of one candidate against the recent set:
`Math.max(...recentEmbeddings.map((e) => cosineSimilarity(ideaEmbedding, e)))`.
`sim c r` stands for the composite external computation
`cosineSimilarity(generateIdeaEmbedding(c), generateIdeaEmbedding(r))`.
The empty case is `Math.max()` of an empty spread, unreachable because the
warm branch runs only with a nonempty recent set. -/
def maxSimTo (sim : BlogIdea → BlogIdea → ℚ) (idea : BlogIdea) :
    List BlogIdea → ℚ
  | [] => 0
  | r :: rs => (rs.map (sim idea)).foldl max (sim idea r)

/-- One iteration of the min–max loop of `selectUniqueIdea`: replace the
running best exactly when the candidate's max similarity is strictly
smaller. -/
def selStep (sim : BlogIdea → BlogIdea → ℚ) (recent : List BlogIdea)
    (acc : BlogIdea × ℚ) (idea : BlogIdea) : BlogIdea × ℚ :=
  let maxSimilarity := maxSimTo sim idea recent
  if maxSimilarity < acc.2 then (idea, maxSimilarity) else acc

/-- `selectUniqueIdea` of the cron-publish handler.  `dateTime` models
`Date` parsing, `sim` the embedding-plus-cosine similarity oracle, and
`rand` the sampled value of `Math.floor(Math.random() * length)` (reduced
into range with `%`; the source value is already in range).  Fails when no
idea is unused; returns a random unused idea when nothing was ever used;
otherwise runs the min–max loop seeded with the first unused idea and
`minMaxSimilarity = 1`. -/
def selectUniqueIdea (dateTime : String → ℤ) (sim : BlogIdea → BlogIdea → ℚ)
    (rand : ℕ) (allIdeas : List BlogIdea) : Except String BlogIdea :=
  match unusedOf allIdeas with
  | [] => .error "No unused ideas available"
  | u0 :: us =>
    match recentOf dateTime allIdeas with
    | [] => .ok ((u0 :: us).getD (rand % (u0 :: us).length) u0)
    | r0 :: rs =>
      .ok (((u0 :: us).foldl (selStep sim (r0 :: rs)) (u0, (1 : ℚ))).1)

/-! ## Concrete instances used by counterexamples and witnesses -/

instance : DecidableEq (Except String BlogIdea) := fun a b =>
  match a, b with
  | .ok x, .ok y =>
    if h : x = y then isTrue (by rw [h]) else isFalse (fun heq => h (Except.ok.inj heq))
  | .error x, .error y =>
    if h : x = y then isTrue (by rw [h]) else isFalse (fun heq => h (Except.error.inj heq))
  | .ok _, .error _ => isFalse fun heq => Except.noConfusion heq
  | .error _, .ok _ => isFalse fun heq => Except.noConfusion heq

/-- Unused candidate `A` of the spec's warm-state example. -/
def exIdeaA : BlogIdea :=
  ⟨"A", "Title A", "desc A", ["t"], "2024-01-01", false, none⟩

/-- Unused candidate `B` of the spec's warm-state example. -/
def exIdeaB : BlogIdea :=
  ⟨"B", "Title B", "desc B", ["t"], "2024-01-01", false, none⟩

/-- Recently used idea `R` of the spec's warm-state example. -/
def exIdeaR : BlogIdea :=
  ⟨"R", "Title R", "desc R", ["t"], "2024-01-01", true, some "2024-01-02"⟩

/-- Similarity oracle of the warm-state example:
`similarity(A, R) = 0.9`, `similarity(B, R) = 0.2`. -/
def exSim : BlogIdea → BlogIdea → ℚ := fun c _ =>
  if c.id = "A" then mkRat 9 10 else if c.id = "B" then mkRat 1 5 else 1

/-- A date parser for examples; every timestamp reads as time 0. -/
def exTime : String → ℤ := fun _ => 0

/-- A stand-in for `Math.sqrt` in witnesses: zero exactly at zero. -/
def exSqrt : ℚ → ℚ := fun x => if x = 0 then 0 else 1

/-- A similarity oracle under which every pair scores 0.5: used to exercise
the tie-break of the min–max loop. -/
def exSimTie : BlogIdea → BlogIdea → ℚ := fun _ _ => mkRat 1 2

/-- An idea marked used but with no `usedAt` timestamp. -/
def exUsedNoTime : BlogIdea :=
  ⟨"U", "Title U", "desc U", ["t"], "2024-01-01", true, none⟩

/-- A fresh candidate idea for gate examples. -/
def exNewIdea : BlogIdea :=
  ⟨"N", "New title", "New description", ["t"], "2024-04-01", false, none⟩

/-- A query match whose score is exactly the 0.85 threshold. -/
def m85 : QueryMatch := ⟨"X", ideaThreshold, exIdeaR⟩

/-- A query match scoring 0.9, above the threshold. -/
def mHigh : QueryMatch := ⟨"H", mkRat 9 10, exIdeaR⟩

/-- A query match scoring 0.1, below the threshold. -/
def mLow : QueryMatch := ⟨"L", mkRat 1 10, exIdeaR⟩

/-- An idea whose `usedAt` is present but is the empty string. -/
def badUsedAtIdea : BlogIdea := ⟨"X", "T", "D", ["a"], "2024", true, some ""⟩

/-- An idea with every field populated, tags containing a quote and a
space, used with a nonempty timestamp. -/
def exIdeaFull : BlogIdea :=
  ⟨"X1", "A title", "A description", ["a", "b\"c", "d e"], "2024-03-01", true,
    some "2024-03-02"⟩

/-- A stored metadata record for markUsed examples. -/
def exMeta : IdeaMetadata := ⟨"T", "D", "[\"a\"]", "2024", "false", ""⟩

/-- A one-record vector store for markUsed examples. -/
def exStore : VectorStore := [("i1", ⟨[1, 0], exMeta⟩)]

/-! ## JSON round-trip lemmas -/

lemma hexVal_hexDigitChar (m : ℕ) (hm : m < 16) : hexVal (hexDigitChar m) = some m := by
  interval_cases m <;> decide

lemma parse_escapeChar (c : Char) (cs : List Char) :
    parseJsonStringBody (escapeChar c ++ cs) =
      Option.map (consFst c) (parseJsonStringBody cs) := by
  unfold escapeChar
  split_ifs with h1 h2 h3 h4 h5 h6 h7 h8
  · subst h1; rw [parseJsonStringBody.eq_def]; simp
  · subst h2; rw [parseJsonStringBody.eq_def]; simp
  · subst h3; rw [parseJsonStringBody.eq_def]; simp
  · subst h4; rw [parseJsonStringBody.eq_def]; simp
  · subst h5; rw [parseJsonStringBody.eq_def]; simp
  · subst h6; rw [parseJsonStringBody.eq_def]; simp
  · subst h7; rw [parseJsonStringBody.eq_def]; simp
  · have hdiv : c.toNat / 16 < 16 := by omega
    have hmod : c.toNat % 16 < 16 := by omega
    have h0 : hexVal '0' = some 0 := by decide
    have key : c.toNat / 16 * 16 + c.toNat % 16 = c.toNat := by omega
    simp only [List.cons_append, List.nil_append]
    rw [parseJsonStringBody.eq_def]
    simp only [h0, hexVal_hexDigitChar _ hdiv, hexVal_hexDigitChar _ hmod]
    norm_num [key]
    have hlt : c.toNat < 55296 := by omega
    simp [hlt, Char.ofNat_toNat]
  · rw [parseJsonStringBody.eq_def]
    simp only [List.singleton_append]
    simp [h1, h2, h8]

lemma parse_escapeList (l : List Char) (cs : List Char) :
    parseJsonStringBody (escapeList l ++ '"' :: cs) = some (l, cs) := by
  induction l with
  | nil => simp [escapeList]; rw [parseJsonStringBody.eq_def]; simp
  | cons c l ih =>
    have h : escapeList (c :: l) = escapeChar c ++ escapeList l := by
      simp [escapeList]
    rw [h, List.append_assoc, parse_escapeChar, ih]
    simp [consFst]

lemma parse_items (xs : List (List Char)) : ∀ (fuel : ℕ) (cs : List Char),
    xs.length ≤ fuel →
    parseJsonArrayItems fuel (encTail xs ++ ']' :: cs) = some (xs, cs) := by
  induction xs with
  | nil =>
    intro fuel cs _
    rw [parseJsonArrayItems.eq_def]
    simp [encTail]
  | cons x xs ih =>
    intro fuel cs hfuel
    cases fuel with
    | zero => simp at hfuel
    | succ f =>
      have hbody : encTail (x :: xs) ++ ']' :: cs
          = ',' :: '"' :: (escapeList x ++ '"' :: (encTail xs ++ ']' :: cs)) := by
        simp [encTail, encodeJsonStringChars]
      rw [hbody, parseJsonArrayItems.eq_def]
      simp only [parse_escapeList]
      rw [ih f cs (by simpa using hfuel)]

lemma encTail_length (xs : List (List Char)) : xs.length ≤ (encTail xs).length := by
  induction xs with
  | nil => simp [encTail]
  | cons x xs ih =>
    have h : encTail (x :: xs) = (',' :: encodeJsonStringChars x) ++ encTail xs := by
      simp [encTail]
    rw [h]
    simp only [List.length_append, List.length_cons]
    omega

lemma string_mk_data (s : String) : String.mk s.data = s := rfl

/-- `JSON.parse` inverts `JSON.stringify` on every array of strings. -/
lemma decode_encode (l : List String) :
    decodeStringArray (encodeStringArray l) = some l := by
  cases l with
  | nil => decide
  | cons s ss =>
    have hdata : (encodeStringArray (s :: ss)).data
        = '[' :: '"' :: (escapeList s.data ++ '"' ::
            (encTail (ss.map String.data) ++ [']'])) := by
      simp [encodeStringArray, encodeArrayChars, encodeJsonStringChars]
    rw [decodeStringArray.eq_def, hdata]
    simp only [parse_escapeList]
    have hfuel : (ss.map String.data).length
        ≤ (encTail (ss.map String.data) ++ [']']).length := by
      have := encTail_length (ss.map String.data)
      simp only [List.length_append, List.length_cons]
      omega
    have hitems := parse_items (ss.map String.data)
      ((encTail (ss.map String.data) ++ [']']).length) [] hfuel
    simp only [List.append_nil] at hitems
    rw [hitems]
    have hid : (String.mk ∘ String.data) = id := funext fun t => rfl
    simp [string_mk_data, List.map_map, hid]

/-! ## Facts about the similarity function -/

lemma sumSq_nonneg (a : List ℚ) : 0 ≤ sumSq a := by
  induction a with
  | nil => simp [sumSq]
  | cons x xs ih =>
    have := mul_self_nonneg x
    simp only [sumSq]
    exact add_nonneg this ih

/-! ## Characterization of the min–max selection loop -/

/-- The fold of `selStep` either never updates (every candidate scores at
least the seed value) or returns the earliest candidate attaining the
minimum: everything before it in the list scores strictly higher. -/
lemma selFold_spec (sim : BlogIdea → BlogIdea → ℚ) (recent : List BlogIdea) :
    ∀ (l : List BlogIdea) (b : BlogIdea) (v : ℚ),
    (l.foldl (selStep sim recent) (b, v) = (b, v)
      ∧ ∀ x ∈ l, v ≤ maxSimTo sim x recent)
    ∨ (∃ pre c post,
        l = pre ++ c :: post
        ∧ l.foldl (selStep sim recent) (b, v) = (c, maxSimTo sim c recent)
        ∧ maxSimTo sim c recent < v
        ∧ (∀ x ∈ l, maxSimTo sim c recent ≤ maxSimTo sim x recent)
        ∧ ∀ y ∈ pre, maxSimTo sim c recent < maxSimTo sim y recent) := by
  intro l
  induction l with
  | nil => intro b v; left; exact ⟨rfl, by simp⟩
  | cons x xs ih =>
    intro b v
    by_cases hx : maxSimTo sim x recent < v
    · have hstep : selStep sim recent (b, v) x = (x, maxSimTo sim x recent) := by
        simp [selStep, hx]
      rcases ih x (maxSimTo sim x recent) with
        ⟨heq, hall⟩ | ⟨pre, c, post, hsplit, heq, hlt, hmin, hpre⟩
      · right
        refine ⟨[], x, xs, rfl, ?_, hx, ?_, by simp⟩
        · simpa [hstep] using heq
        · intro y hy
          rcases List.mem_cons.mp hy with hy | hy
          · exact le_of_eq (by rw [hy])
          · exact hall y hy
      · right
        refine ⟨x :: pre, c, post, by rw [hsplit, List.cons_append], ?_,
          lt_trans hlt hx, ?_, ?_⟩
        · simpa [hstep] using heq
        · intro y hy
          rcases List.mem_cons.mp hy with hy | hy
          · exact le_of_lt (by rw [hy]; exact hlt)
          · exact hmin y hy
        · intro y hy
          rcases List.mem_cons.mp hy with hy | hy
          · rw [hy]; exact hlt
          · exact hpre y hy
    · have hstep : selStep sim recent (b, v) x = (b, v) := by
        simp [selStep, hx]
      have hvx : v ≤ maxSimTo sim x recent := le_of_not_lt hx
      rcases ih b v with
        ⟨heq, hall⟩ | ⟨pre, c, post, hsplit, heq, hlt, hmin, hpre⟩
      · left
        refine ⟨by simpa [hstep] using heq, ?_⟩
        intro y hy
        rcases List.mem_cons.mp hy with hy | hy
        · rw [hy]; exact hvx
        · exact hall y hy
      · right
        refine ⟨x :: pre, c, post, by rw [hsplit, List.cons_append], ?_, hlt,
          ?_, ?_⟩
        · simpa [hstep] using heq
        · intro y hy
          rcases List.mem_cons.mp hy with hy | hy
          · rw [hy]; exact le_of_lt (lt_of_lt_of_le hlt hvx)
          · exact hmin y hy
        · intro y hy
          rcases List.mem_cons.mp hy with hy | hy
          · rw [hy]; exact lt_of_lt_of_le hlt hvx
          · exact hpre y hy

/-- Whatever `selectUniqueIdea` returns is a member of the unused
partition, in both the cold-start and the warm branch. -/
lemma selectUniqueIdea_mem_unused (dateTime : String → ℤ)
    (sim : BlogIdea → BlogIdea → ℚ) (rand : ℕ) (allIdeas : List BlogIdea)
    (idea : BlogIdea)
    (h : selectUniqueIdea dateTime sim rand allIdeas = .ok idea) :
    idea ∈ unusedOf allIdeas := by
  unfold selectUniqueIdea at h
  split at h
  · exact absurd h (by simp)
  · rename_i u0 us hu
    split at h
    · rename_i hr
      have hidea := (Except.ok.inj h).symm
      have hlt : rand % (u0 :: us).length < (u0 :: us).length :=
        Nat.mod_lt _ (by simp)
      have hmem : (u0 :: us).getD (rand % (u0 :: us).length) u0 ∈ u0 :: us := by
        rw [List.getD_eq_getElem?_getD, List.getElem?_eq_getElem hlt]
        exact List.getElem_mem hlt
      rw [hu]
      exact hidea ▸ hmem
    · rename_i r0 rs hr
      have hidea := (Except.ok.inj h).symm
      rcases selFold_spec sim (r0 :: rs) (u0 :: us) u0 1 with
        ⟨heq, _⟩ | ⟨pre, c, post, hsplit, heq, _, _, _⟩
      · rw [hu]
        rw [heq] at hidea
        exact hidea ▸ List.mem_cons_self u0 us
      · rw [hu, hsplit]
        rw [heq] at hidea
        subst hidea
        exact List.mem_append_right _ (List.mem_cons_self _ _)

/-- Whatever `selectUniqueIdea` returns has `used = false`. -/
lemma selectUniqueIdea_not_used (dateTime : String → ℤ)
    (sim : BlogIdea → BlogIdea → ℚ) (rand : ℕ) (allIdeas : List BlogIdea)
    (idea : BlogIdea)
    (h : selectUniqueIdea dateTime sim rand allIdeas = .ok idea) :
    idea.used = false := by
  have hmem := selectUniqueIdea_mem_unused dateTime sim rand allIdeas idea h
  have := (List.mem_filter.mp hmem).2
  simpa using this

/-! ## Claims -/

/-- C1 (counterexample): a query result scoring exactly the 0.85 threshold
is accepted and stored by the gate, although the maximum similarity equals
the threshold; the code rejects only on strictly greater scores (and the
unused helper `isIdeaUnique` would already deem this score non-unique). -/
theorem claim_C1_counterexample :
    ideaThreshold ≤ m85.score
    ∧ isIdeaUnique m85.score ideaThreshold = false
    ∧ (createIdeaHandler [m85] exNewIdea).status = 201
    ∧ (createIdeaHandler [m85] exNewIdea).stored = some exNewIdea := by
  refine ⟨by decide, by decide, by decide, by decide⟩

/-- C1 (amended): the Uniqueness Gate rejects the candidate, storing
nothing, exactly when some returned similarity score is strictly greater
than the threshold 0.85 (equivalently, the maximum exceeds 0.85); otherwise
it accepts and the idea is stored. -/
theorem claim_C1_gate_amended (sims : List QueryMatch) (idea : BlogIdea) :
    ((∃ m ∈ sims, ideaThreshold < m.score) →
      (createIdeaHandler sims idea).status = 400
      ∧ (createIdeaHandler sims idea).stored = none)
    ∧ ((∀ m ∈ sims, m.score ≤ ideaThreshold) →
      (createIdeaHandler sims idea).status = 201
      ∧ (createIdeaHandler sims idea).stored = some idea) := by
  constructor
  · rintro ⟨m, hm, hgt⟩
    have hany : (sims.any fun m => ideaThreshold < m.score) = true :=
      List.any_eq_true.mpr ⟨m, hm, by simpa using hgt⟩
    constructor <;> simp [createIdeaHandler, hany]
  · intro hall
    have hany : (sims.any fun m => ideaThreshold < m.score) = false := by
      simp only [List.any_eq_false, decide_eq_true_eq]
      intro m hm
      exact not_lt_of_le (hall m hm)
    constructor <;> simp [createIdeaHandler, hany]

/-- C1 (witness): the amended gate at concrete inputs — a result list with
a 0.9 score is rejected with nothing stored, and a list with only a 0.1
score is accepted and stored. -/
theorem claim_C1_witness :
    ((createIdeaHandler [mHigh, mLow] exNewIdea).status = 400
      ∧ (createIdeaHandler [mHigh, mLow] exNewIdea).stored = none)
    ∧ ((createIdeaHandler [mLow] exNewIdea).status = 201
      ∧ (createIdeaHandler [mLow] exNewIdea).stored = some exNewIdea) :=
  ⟨(claim_C1_gate_amended [mHigh, mLow] exNewIdea).1 (by decide),
   (claim_C1_gate_amended [mLow] exNewIdea).2 (by decide)⟩

/-- C2: with at least one unused idea, a nonempty recent-history set, and
cosine similarities bounded by 1, `selectUniqueIdea` returns an unused
candidate whose maximum similarity to the recent set is minimal over all
unused candidates; and on the spec's concrete example (`sim(A,R) = 0.9`,
`sim(B,R) = 0.2`) it returns `B`. -/
theorem claim_C2_minmax_selection :
    (∀ (dateTime : String → ℤ) (sim : BlogIdea → BlogIdea → ℚ) (rand : ℕ)
        (allIdeas : List BlogIdea) (u0 : BlogIdea) (us : List BlogIdea)
        (r0 : BlogIdea) (rs : List BlogIdea),
      unusedOf allIdeas = u0 :: us →
      recentOf dateTime allIdeas = r0 :: rs →
      (∀ c ∈ u0 :: us, maxSimTo sim c (r0 :: rs) ≤ 1) →
      ∃ i, selectUniqueIdea dateTime sim rand allIdeas = .ok i
        ∧ i ∈ u0 :: us
        ∧ ∀ c ∈ u0 :: us,
            maxSimTo sim i (r0 :: rs) ≤ maxSimTo sim c (r0 :: rs))
    ∧ selectUniqueIdea exTime exSim 0 [exIdeaA, exIdeaB, exIdeaR] = .ok exIdeaB := by
  constructor
  · intro dateTime sim rand allIdeas u0 us r0 rs h1 h2 hsim
    have hsel : selectUniqueIdea dateTime sim rand allIdeas =
        .ok (((u0 :: us).foldl (selStep sim (r0 :: rs)) (u0, (1 : ℚ))).1) := by
      simp only [selectUniqueIdea, h1, h2]
    rcases selFold_spec sim (r0 :: rs) (u0 :: us) u0 1 with
      ⟨heq, hall⟩ | ⟨pre, c, post, hsplit, heq, _, hmin, _⟩
    · refine ⟨u0, ?_, List.mem_cons_self u0 us, ?_⟩
      · rw [hsel, heq]
      · intro c hc
        exact le_trans (hsim u0 (List.mem_cons_self u0 us)) (hall c hc)
    · refine ⟨c, ?_, ?_, hmin⟩
      · rw [hsel, heq]
      · rw [hsplit]
        exact List.mem_append_right _ (List.mem_cons_self _ _)
  · decide

/-- C2 (witness): the warm-state selection at the spec's example inputs,
with every hypothesis discharged on concrete data. -/
theorem claim_C2_witness :
    ∃ i, selectUniqueIdea exTime exSim 0 [exIdeaA, exIdeaB, exIdeaR] = .ok i
      ∧ i ∈ exIdeaA :: [exIdeaB]
      ∧ ∀ c ∈ exIdeaA :: [exIdeaB],
          maxSimTo exSim i (exIdeaR :: []) ≤ maxSimTo exSim c (exIdeaR :: []) :=
  claim_C2_minmax_selection.1 exTime exSim 0 [exIdeaA, exIdeaB, exIdeaR]
    exIdeaA [exIdeaB] exIdeaR [] (by decide) (by decide) (by decide)

/-- C3: in the warm state (with cosine similarities bounded by 1) the
selected candidate splits the unused list as `pre ++ i :: post` where every
earlier candidate in `pre` scores strictly higher — so ties keep the
earliest-encountered candidate; and under a similarity oracle scoring every
pair 0.5 (a complete tie) the first unused idea is returned. -/
theorem claim_C3_tiebreak_earliest :
    (∀ (dateTime : String → ℤ) (sim : BlogIdea → BlogIdea → ℚ) (rand : ℕ)
        (allIdeas : List BlogIdea) (u0 : BlogIdea) (us : List BlogIdea)
        (r0 : BlogIdea) (rs : List BlogIdea),
      unusedOf allIdeas = u0 :: us →
      recentOf dateTime allIdeas = r0 :: rs →
      (∀ c ∈ u0 :: us, maxSimTo sim c (r0 :: rs) ≤ 1) →
      ∃ pre i post,
        unusedOf allIdeas = pre ++ i :: post
        ∧ selectUniqueIdea dateTime sim rand allIdeas = .ok i
        ∧ (∀ c ∈ unusedOf allIdeas,
            maxSimTo sim i (r0 :: rs) ≤ maxSimTo sim c (r0 :: rs))
        ∧ ∀ y ∈ pre, maxSimTo sim i (r0 :: rs) < maxSimTo sim y (r0 :: rs))
    ∧ selectUniqueIdea exTime exSimTie 0 [exIdeaA, exIdeaB, exIdeaR] = .ok exIdeaA := by
  constructor
  · intro dateTime sim rand allIdeas u0 us r0 rs h1 h2 hsim
    have hsel : selectUniqueIdea dateTime sim rand allIdeas =
        .ok (((u0 :: us).foldl (selStep sim (r0 :: rs)) (u0, (1 : ℚ))).1) := by
      simp only [selectUniqueIdea, h1, h2]
    rcases selFold_spec sim (r0 :: rs) (u0 :: us) u0 1 with
      ⟨heq, hall⟩ | ⟨pre, c, post, hsplit, heq, _, hmin, hpre⟩
    · refine ⟨[], u0, us, by simpa using h1, ?_, ?_, by simp⟩
      · rw [hsel, heq]
      · intro c hc
        rw [h1] at hc
        exact le_trans (hsim u0 (List.mem_cons_self u0 us)) (hall c hc)
    · refine ⟨pre, c, post, by rw [h1, hsplit], ?_, ?_, hpre⟩
      · rw [hsel, heq]
      · intro y hy
        rw [h1] at hy
        exact hmin y hy
  · decide

/-- C3 (witness): the earliest-tie-break decomposition at the all-ties
example, hypotheses discharged on concrete data. -/
theorem claim_C3_witness :
    ∃ pre i post,
      unusedOf [exIdeaA, exIdeaB, exIdeaR] = pre ++ i :: post
      ∧ selectUniqueIdea exTime exSimTie 0 [exIdeaA, exIdeaB, exIdeaR] = .ok i
      ∧ (∀ c ∈ unusedOf [exIdeaA, exIdeaB, exIdeaR],
          maxSimTo exSimTie i (exIdeaR :: []) ≤ maxSimTo exSimTie c (exIdeaR :: []))
      ∧ ∀ y ∈ pre, maxSimTo exSimTie i (exIdeaR :: []) < maxSimTo exSimTie y (exIdeaR :: []) :=
  claim_C3_tiebreak_earliest.1 exTime exSimTie 0 [exIdeaA, exIdeaB, exIdeaR]
    exIdeaA [exIdeaB] exIdeaR [] (by decide) (by decide) (by decide)

/-- C4: whenever `selectUniqueIdea` returns an idea — through the
cold-start random branch or the warm min–max branch — that idea has
`used = false`; an idea whose used flag is true is never returned. -/
theorem claim_C4_never_used (dateTime : String → ℤ)
    (sim : BlogIdea → BlogIdea → ℚ) (rand : ℕ) (allIdeas : List BlogIdea)
    (idea : BlogIdea)
    (h : selectUniqueIdea dateTime sim rand allIdeas = .ok idea) :
    idea.used = false :=
  selectUniqueIdea_not_used dateTime sim rand allIdeas idea h

/-- C4 (witness): the concrete warm-state run returns `B`, and `B` is
unused. -/
theorem claim_C4_witness :
    selectUniqueIdea exTime exSim 0 [exIdeaA, exIdeaB, exIdeaR] = .ok exIdeaB
    ∧ exIdeaB.used = false :=
  ⟨by decide,
   claim_C4_never_used exTime exSim 0 [exIdeaA, exIdeaB, exIdeaR] exIdeaB (by decide)⟩

/-- C5 (counterexample): an idea with `usedAt = some ""` does not survive
the round trip — its encoded `usedAt` is the empty string, which decodes to
absent. -/
theorem claim_C5_counterexample :
    metadataToIdea badUsedAtIdea.id (ideaToMetadata badUsedAtIdea)
      = some { badUsedAtIdea with usedAt := none }
    ∧ metadataToIdea badUsedAtIdea.id (ideaToMetadata badUsedAtIdea)
      ≠ some badUsedAtIdea := by
  constructor
  · decide
  · decide

/-- C5 (amended): for every idea whose `usedAt` is not literally the empty
string, encoding to the flat string metadata and decoding back reproduces
the idea exactly, tags order included; an empty-string `usedAt` decodes to
absent. -/
theorem claim_C5_roundtrip_amended (idea : BlogIdea)
    (h : idea.usedAt ≠ some "") :
    metadataToIdea idea.id (ideaToMetadata idea) = some idea := by
  obtain ⟨i, t, d, tg, ca, u, ua⟩ := idea
  unfold metadataToIdea ideaToMetadata
  simp only [decode_encode, Option.map_some]
  cases ua with
  | none => cases u <;> simp
  | some s =>
    have hs : s ≠ "" := fun hs => h (by simp [hs])
    cases u <;> simp [hs]

/-- C5 (witness): the round trip at a fully populated idea whose tags
contain a quote and a space, hypothesis discharged concretely. -/
theorem claim_C5_witness :
    exIdeaFull.usedAt ≠ some "" ∧
      metadataToIdea exIdeaFull.id (ideaToMetadata exIdeaFull) = some exIdeaFull :=
  ⟨by decide, claim_C5_roundtrip_amended exIdeaFull (by decide)⟩

/-- C6: `markIdeaAsUsed` on an id absent from the store fails with
"Idea not found" and never produces an updated store — no upsert happens
and the pool is unchanged. -/
theorem claim_C6_markUsed_absent (store : VectorStore) (id now : String)
    (h : fetchRecord store id = none) :
    markIdeaAsUsed store id now = .error "Idea not found"
    ∧ ∀ store2, markIdeaAsUsed store id now ≠ .ok store2 := by
  have hmain : markIdeaAsUsed store id now = .error "Idea not found" := by
    simp only [markIdeaAsUsed, h]
  exact ⟨hmain, fun store2 hc => by rw [hmain] at hc; exact Except.noConfusion hc⟩

/-- C6 (witness): marking a missing id in the empty store fails with
"Idea not found". -/
theorem claim_C6_witness :
    fetchRecord [] "missing" = none
    ∧ markIdeaAsUsed [] "missing" "2024-05-05" = .error "Idea not found" :=
  ⟨rfl, (claim_C6_markUsed_absent [] "missing" "2024-05-05" rfl).1⟩

/-- C7: `markIdeaAsUsed` on a present id re-upserts exactly the stored
vector (never recomputed) with metadata rewritten to `used = "true"` and
`usedAt = now`, while title, description, tags (as decoded lists) and
createdAt are kept from the fetched metadata. -/
theorem claim_C7_markUsed_frame (store : VectorStore) (id now : String)
    (rec : StoredRecord) (idea : BlogIdea)
    (h1 : fetchRecord store id = some rec)
    (h2 : metadataToIdea id rec.metadata = some idea) :
    markIdeaAsUsed store id now =
      .ok (upsertRecord store id
        ⟨rec.values, ideaToMetadata { idea with used := true, usedAt := some now }⟩)
    ∧ (ideaToMetadata { idea with used := true, usedAt := some now }).title
        = rec.metadata.title
    ∧ (ideaToMetadata { idea with used := true, usedAt := some now }).description
        = rec.metadata.description
    ∧ decodeStringArray (ideaToMetadata { idea with used := true, usedAt := some now }).tags
        = decodeStringArray rec.metadata.tags
    ∧ (ideaToMetadata { idea with used := true, usedAt := some now }).createdAt
        = rec.metadata.createdAt
    ∧ (ideaToMetadata { idea with used := true, usedAt := some now }).used = "true"
    ∧ (ideaToMetadata { idea with used := true, usedAt := some now }).usedAt = now := by
  have hmain : markIdeaAsUsed store id now =
      .ok (upsertRecord store id
        ⟨rec.values, ideaToMetadata { idea with used := true, usedAt := some now }⟩) := by
    simp only [markIdeaAsUsed, h1, h2]
  obtain ⟨tg, htg, hidea⟩ := Option.map_eq_some'.mp h2
  refine ⟨hmain, ?_, ?_, ?_, ?_, ?_, ?_⟩
  · rw [← hidea]; rfl
  · rw [← hidea]; rfl
  · rw [← hidea]
    show decodeStringArray (encodeStringArray tg) = decodeStringArray rec.metadata.tags
    rw [decode_encode, htg]
  · rw [← hidea]; rfl
  · rfl
  · rfl

/-- C7 (witness): marking the one stored idea of the example store keeps
its vector `[1, 0]` and rewrites only the metadata; the fresh `usedAt` is
the supplied timestamp. -/
theorem claim_C7_witness :
    markIdeaAsUsed exStore "i1" "2024-05-05" =
      .ok (upsertRecord exStore "i1"
        ⟨(⟨[1, 0], exMeta⟩ : StoredRecord).values,
          ideaToMetadata { (⟨"i1", "T", "D", ["a"], "2024", false, none⟩ : BlogIdea) with
            used := true, usedAt := some "2024-05-05" }⟩)
    ∧ (ideaToMetadata { (⟨"i1", "T", "D", ["a"], "2024", false, none⟩ : BlogIdea) with
          used := true, usedAt := some "2024-05-05" }).usedAt = "2024-05-05" :=
  ⟨(claim_C7_markUsed_frame exStore "i1" "2024-05-05" ⟨[1, 0], exMeta⟩
      ⟨"i1", "T", "D", ["a"], "2024", false, none⟩ (by decide) (by decide)).1,
   (claim_C7_markUsed_frame exStore "i1" "2024-05-05" ⟨[1, 0], exMeta⟩
      ⟨"i1", "T", "D", ["a"], "2024", false, none⟩ (by decide) (by decide)).2.2.2.2.2.2⟩

/-- C8: for equal-length vectors, when either vector has zero magnitude
(zero sum of squares, hence zero square root for any `Math.sqrt` that
vanishes exactly at 0) `cosineSimilarity` returns exactly 0 through the
guard, never reaching the division. -/
theorem claim_C8_zero_magnitude (sqrt : ℚ → ℚ)
    (hsqrt : ∀ x, 0 ≤ x → (sqrt x = 0 ↔ x = 0))
    (a b : List ℚ) (hlen : a.length = b.length)
    (hzero : sumSq a = 0 ∨ sumSq b = 0) :
    cosineSimilarity sqrt a b = .ok 0 := by
  have hcond : ¬ a.length ≠ b.length := by simp [hlen]
  have guard : sqrt (sumSq a) = 0 ∨ sqrt (sumSq b) = 0 := by
    rcases hzero with h | h
    · exact Or.inl ((hsqrt _ (sumSq_nonneg a)).mpr h)
    · exact Or.inr ((hsqrt _ (sumSq_nonneg b)).mpr h)
  unfold cosineSimilarity
  rw [if_neg hcond]
  dsimp only
  rw [if_pos guard]

/-- C8 (witness): the similarity of the zero vector with itself is 0 — not
1 — with every hypothesis discharged on concrete data. -/
theorem claim_C8_witness :
    (∀ x : ℚ, 0 ≤ x → (exSqrt x = 0 ↔ x = 0))
    ∧ sumSq [(0 : ℚ), 0, 0] = 0
    ∧ cosineSimilarity exSqrt [(0 : ℚ), 0, 0] [(0 : ℚ), 0, 0] = .ok 0
    ∧ (Except.ok (0 : ℚ) ≠ (Except.ok 1 : Except String ℚ)) := by
  have hsq : ∀ x : ℚ, 0 ≤ x → (exSqrt x = 0 ↔ x = 0) := by
    intro x hx
    by_cases h : x = 0 <;> simp [exSqrt, h]
  have hz : sumSq [(0 : ℚ), 0, 0] = 0 := by simp [sumSq]
  refine ⟨hsq, hz, claim_C8_zero_magnitude exSqrt hsq _ _ rfl (Or.inl hz), by simp⟩

/-- C9: when the gate rejects, the diagnostic list is literally the first
three query results (title and score), sliced with no threshold filter —
and there are rejected requests whose diagnostic list contains a
below-threshold idea. -/
theorem claim_C9_conflicts_slice :
    (∀ (sims : List QueryMatch) (idea : BlogIdea),
      (createIdeaHandler sims idea).status = 400 →
      (createIdeaHandler sims idea).similarIdeas
        = (sims.take 3).map fun m => (m.metadata.title, m.score))
    ∧ ∃ sims idea, (createIdeaHandler sims idea).status = 400
        ∧ ∃ p ∈ (createIdeaHandler sims idea).similarIdeas, p.2 < ideaThreshold := by
  constructor
  · intro sims idea h400
    by_cases hany : (sims.any fun m => ideaThreshold < m.score) = true
    · simp [createIdeaHandler, hany]
    · exfalso
      simp [createIdeaHandler, hany] at h400
  · exact ⟨[mHigh, mLow], exNewIdea, by decide, by decide⟩

/-- C9 (witness): a rejected request whose diagnostic list is the
unfiltered 3-slice and contains the below-threshold 0.1 match. -/
theorem claim_C9_witness :
    (createIdeaHandler [mHigh, mLow] exNewIdea).status = 400
    ∧ (createIdeaHandler [mHigh, mLow] exNewIdea).similarIdeas
        = ([mHigh, mLow].take 3).map fun m => (m.metadata.title, m.score) :=
  ⟨by decide, claim_C9_conflicts_slice.1 [mHigh, mLow] exNewIdea (by decide)⟩

/-- C10: an idea with `used = true` but no `usedAt` is excluded from both
partitions of the selection: it is not in the unused pool, not in the
recent-history set, and `selectUniqueIdea` never returns it. -/
theorem claim_C10_used_without_usedAt_excluded (dateTime : String → ℤ)
    (allIdeas : List BlogIdea) (idea : BlogIdea)
    (hused : idea.used = true) (htime : idea.usedAt = none) :
    idea ∉ unusedOf allIdeas
    ∧ idea ∉ recentOf dateTime allIdeas
    ∧ ∀ (sim : BlogIdea → BlogIdea → ℚ) (rand : ℕ) (other : BlogIdea),
        selectUniqueIdea dateTime sim rand allIdeas = .ok other → other ≠ idea := by
  refine ⟨?_, ?_, ?_⟩
  · intro hmem
    have := (List.mem_filter.mp hmem).2
    simp [hused] at this
  · intro hmem
    have h2 := List.take_subset 5 _ hmem
    have h3 := (List.mem_insertionSort
      (fun a b : BlogIdea =>
        dateTime (b.usedAt.getD "") ≤ dateTime (a.usedAt.getD ""))).mp h2
    have := (List.mem_filter.mp h3).2
    simp [htime] at this
  · intro sim rand other hsel hoe
    have := selectUniqueIdea_not_used dateTime sim rand allIdeas other hsel
    rw [hoe, hused] at this
    exact Bool.noConfusion this

/-- C10 (witness): the used-without-timestamp idea is in neither partition
of the concrete pool, and the concrete cold-start run returns the other
idea. -/
theorem claim_C10_witness :
    exUsedNoTime ∉ unusedOf [exUsedNoTime, exIdeaA]
    ∧ exUsedNoTime ∉ recentOf exTime [exUsedNoTime, exIdeaA]
    ∧ exIdeaA ≠ exUsedNoTime :=
  ⟨(claim_C10_used_without_usedAt_excluded exTime [exUsedNoTime, exIdeaA]
      exUsedNoTime (by decide) (by decide)).1,
   (claim_C10_used_without_usedAt_excluded exTime [exUsedNoTime, exIdeaA]
      exUsedNoTime (by decide) (by decide)).2.1,
   (claim_C10_used_without_usedAt_excluded exTime [exUsedNoTime, exIdeaA]
      exUsedNoTime (by decide) (by decide)).2.2 exSim 0 exIdeaA (by decide)⟩
